import Mathlib

/-!
# Go interpreter plugin (`interpreter/golang/golang.go`) and the CPU range notation

A shallow embedding of `Loader`, `data.Attach` and `data.Detach`, together with
the sampler handle they talk to, followed by the comma/range notation exercised
by `hostmetadata/host/cpuinfo_test.go`.

Go values of the shape `(T, error)` are pairs whose second component is an
`Option GoError` (`none` is Go's `nil` error); an interface value that may be
`nil` is an `Option`.
-/

namespace Golang

/-! ## Errors -/

/-- A package level error variable such as `NoGoVersion`, set once when the package is
loaded.  Its value has an identity of its own: Go's `==` holds between two error values of
pointer type only when they are the same pointer, so a value is `==` to the value of the
variable exactly when it is that value, whatever text the two carry. -/
structure ErrorVar where
  name : String
  deriving DecidableEq, Repr

/-- Go `error` values that are not `nil`.
* `sentinel v` is the value of the package level variable `v`;
* `errorString msg` is a value allocated by `errors.New`, or by `fmt.Errorf` without a
  wrapping verb, while the program runs: it is the value of no package level variable;
* `wrapError msg err` is the value of `fmt.Errorf` with one wrapping verb
  (`Unwrap() error`);
* `wrapErrors msg errs` is the value of `fmt.Errorf` with several wrapping verbs or of
  `errors.Join` (`Unwrap() []error`);
* `custom msg isMethod errs` is a value of any other error type: `isMethod` is its
  `Is(error) bool` method (constantly `false` when the type has none) and `errs` is what
  it unwraps to. -/
inductive GoError where
  | sentinel (v : ErrorVar)
  | errorString (msg : String)
  | wrapError (msg : String) (err : GoError)
  | wrapErrors (msg : String) (errs : List GoError)
  | custom (msg : String) (isMethod : ErrorVar → Bool) (errs : List GoError)

mutual
/-- The walk of Go `errors.Is` from an error that is not `nil`, for a target that is the
value of a package level variable: at each error it tests `err == target`, then the `Is`
method, then goes on through what the error unwraps to. -/
def GoError.is : GoError → ErrorVar → Bool
  | .sentinel v, target => decide (v = target)
  | .errorString _, _ => false
  | .wrapError _ err, target => err.is target
  | .wrapErrors _ errs, target => GoError.isAny errs target
  | .custom _ isMethod errs, target => isMethod target || GoError.isAny errs target
/-- The loop of `errors.Is` over the errors of an `Unwrap() []error`. -/
def GoError.isAny : List GoError → ErrorVar → Bool
  | [], _ => false
  | err :: errs, target => err.is target || GoError.isAny errs target
end

/-- Go `errors.Is(err, target)` for a target that is the value of a package level
variable: a `nil` error matches nothing. -/
def errorsIs : Option GoError → ErrorVar → Bool
  | none, _ => false
  | some e, target => e.is target

/-! ## Types of the collaborators -/

/-- Modelled from the spec: the declaration of `libpf.InterpreterType` is missing; the
spec describes RuntimeKind as an enumerated tag with one value per supported runtime.
`Go` is `libpf.Go`, every other kind is `other` with its tag. -/
inductive InterpreterType where
  | Go
  | other (tag : Nat)
  deriving DecidableEq, Repr

/-- Go `util.PID`, a process id. -/
abbrev PID := Nat

/-- Go `libpf.Address`, an address or load bias. -/
abbrev Address := Nat

/-- Modelled from the spec: the declaration of `C.GoCustomLabelsOffsets`
(`support/ebpf/types.h`) is missing; the spec describes the OffsetTable as an immutable
record of numeric field offsets and structure sizes.  The record is kept as the list of
its numeric fields. -/
structure GoCustomLabelsOffsets where
  fields : List Nat
  deriving DecidableEq, Repr

/-- Modelled from the spec: the declaration of `remotememory.RemoteMemory` is missing;
the spec describes the Remote Memory Reader as `ReadAt(address, length)` giving bytes or
failing. -/
structure RemoteMemory where
  ReadAt : Address → Nat → Option (List Nat)

/-- The part of `interpreter.EbpfHandler` that `golang.go` calls, over a sampler
state `σ`: every method takes the state and returns the new state with its `error`. -/
structure EbpfHandler (σ : Type) where
  UpdateProcData : σ → InterpreterType → PID → GoCustomLabelsOffsets → σ × Option GoError
  DeleteProcData : σ → InterpreterType → PID → σ × Option GoError

/-- One call made on the sampler handle. -/
inductive EbpfCall where
  | UpdateProcData (typ : InterpreterType) (pid : PID) (blob : GoCustomLabelsOffsets)
  | DeleteProcData (typ : InterpreterType) (pid : PID)
  deriving DecidableEq, Repr

/-- A handler that behaves as `h` and appends every call it receives to a log. -/
def EbpfHandler.recording {σ : Type} (h : EbpfHandler σ) : EbpfHandler (σ × List EbpfCall) where
  UpdateProcData := fun st typ pid blob =>
    let r := h.UpdateProcData st.1 typ pid blob
    ((r.1, st.2 ++ [EbpfCall.UpdateProcData typ pid blob]), r.2)
  DeleteProcData := fun st typ pid =>
    let r := h.DeleteProcData st.1 typ pid
    ((r.1, st.2 ++ [EbpfCall.DeleteProcData typ pid]), r.2)

/-! ## `golang.go` -/

/-- Go `type data struct`: the embedded `interpreter.InstanceStubs` has no fields. -/
structure data where
  goVersion : String
  offsets : GoCustomLabelsOffsets
  deriving DecidableEq, Repr

/-- Go `func (d data) Attach(ebpf, pid, bias, rm) (interpreter.Instance, error)`.
The returned instance is `&d`, a pointer to the receiver's copy. -/
def data.Attach {σ : Type} (d : data) (ebpf : EbpfHandler σ) (st : σ) (pid : PID)
    (_bias : Address) (_rm : RemoteMemory) : σ × Option data × Option GoError :=
  match ebpf.UpdateProcData st InterpreterType.Go pid d.offsets with
  | (st1, some err) => (st1, none, some err)
  | (st1, none) => (st1, some d, none)

/-- Go `func (d data) Detach(ebpf, pid) error`. -/
def data.Detach {σ : Type} (_d : data) (ebpf : EbpfHandler σ) (st : σ) (pid : PID) :
    σ × Option GoError :=
  ebpf.DeleteProcData st InterpreterType.Go pid

/-- The part of `interpreter.LoaderInfo` that `Loader` calls, over the type `F` of
opened ELF files. -/
structure LoaderInfo (F : Type) where
  GetELF : Option F × Option GoError
  FileName : String

/-- A line written through `log.Debugf`. -/
structure DebugLine where
  text : String
  deriving DecidableEq, Repr

/-- What `Loader` returns, with the debug lines it wrote. -/
structure LoaderResult where
  data : Option data
  err : Option GoError
  log : List DebugLine

/-- Go `func Loader(_ interpreter.EbpfHandler, info *interpreter.LoaderInfo)`.
`ReadGoVersion`, `NoGoVersion` and the registry `allOffsets` are declared elsewhere in
the package and are taken as parameters; a Go map read is a partial function. -/
def Loader {F : Type} (ReadGoVersion : Option F → String × Option GoError)
    (NoGoVersion : ErrorVar) (allOffsets : String → Option GoCustomLabelsOffsets)
    (info : LoaderInfo F) : LoaderResult :=
  match info.GetELF with
  | (_, some err) => ⟨none, some err, []⟩
  | (file, none) =>
    match ReadGoVersion file with
    | (goVersion, err) =>
      if errorsIs err NoGoVersion then
        ⟨none, none, [⟨"file " ++ info.FileName ++ " is not a Go binary"⟩]⟩
      else
        match err with
        | some e => ⟨none, some e, []⟩
        | none =>
          let line : DebugLine :=
            ⟨"file " ++ info.FileName ++ " detected as go version " ++ goVersion⟩
          match allOffsets goVersion with
          | none =>
            ⟨none, some (GoError.errorString ("No offsets found for go version " ++ goVersion)),
              [line]⟩
          | some offsets => ⟨some ⟨goVersion, offsets⟩, none, [line]⟩

/-! ## A sampler handle that is a map -/

/-- The registrations of a sampler, keyed by runtime kind and process id. -/
abbrev Registrations := InterpreterType × PID → Option GoCustomLabelsOffsets

/-- The sampler handle as a map: `UpdateProcData` inserts, `DeleteProcData` deletes
and, as a Go map delete, reports nothing when the key is absent. -/
def mapSampler : EbpfHandler Registrations where
  UpdateProcData := fun st typ pid blob => (Function.update st (typ, pid) (some blob), none)
  DeleteProcData := fun st typ pid => (Function.update st (typ, pid) none, none)

/-- The sampler handle as a kernel map: deleting an absent key fails with an error
saying so. -/
def strictSampler : EbpfHandler Registrations where
  UpdateProcData := fun st typ pid blob => (Function.update st (typ, pid) (some blob), none)
  DeleteProcData := fun st typ pid =>
    match st (typ, pid) with
    | none => (st, some (GoError.errorString "key does not exist"))
    | some _ => (Function.update st (typ, pid) none, none)

/-- A handler's `DeleteProcData` tolerates an absent entry: it never returns an error. -/
def TolerantUnregister {σ : Type} (h : EbpfHandler σ) : Prop :=
  ∀ st typ pid, (h.DeleteProcData st typ pid).2 = none

/-- The number of `DeleteProcData typ pid` calls in a log. -/
def countUnregister (typ : InterpreterType) (pid : PID) (log : List EbpfCall) : Nat :=
  log.count (EbpfCall.DeleteProcData typ pid)

/-- The number of `UpdateProcData` calls in a log. -/
def countRegister (log : List EbpfCall) : Nat :=
  (log.filter fun c => match c with
    | EbpfCall.UpdateProcData _ _ _ => true
    | _ => false).length

/-- A sampler handle whose `UpdateProcData` always fails and leaves the registrations
as they are. -/
def fullSampler : EbpfHandler Registrations where
  UpdateProcData := fun st _ _ _ => (st, some (GoError.errorString "map is full"))
  DeleteProcData := fun st typ pid => (Function.update st (typ, pid) none, none)

/-! ## Concrete inputs -/

/-- Registrations with no entry. -/
def emptyRegistrations : Registrations := fun _ => none

/-- A registry with the single version `1.21.3`. -/
def sampleOffsets : String → Option GoCustomLabelsOffsets :=
  fun v => if v = "1.21.3" then some ⟨[8, 16, 24]⟩ else none

/-- A resolved data value for version `1.21.3`. -/
def sampleData : data := ⟨"1.21.3", ⟨[8, 16, 24]⟩⟩

/-- A remote memory with nothing readable. -/
def sampleMemory : RemoteMemory := ⟨fun _ _ => none⟩

/-- A loader info whose ELF opens. -/
def sampleInfo : LoaderInfo Unit := ⟨(some (), none), "/usr/bin/app"⟩

/-- A loader info whose ELF does not open. -/
def brokenInfo : LoaderInfo Unit := ⟨(none, some (GoError.errorString "bad ELF magic")), "/usr/bin/app"⟩

/-- The package level variable `NoGoVersion`. -/
def sampleNoGoVersion : ErrorVar := ⟨"NoGoVersion"⟩

/-- A version detection that succeeds with the version `v`. -/
def detects (v : String) : Option Unit → String × Option GoError := fun _ => (v, none)

/-- A version detection that fails with the error `e`. -/
def detectFails (e : GoError) : Option Unit → String × Option GoError := fun _ => ("", some e)

end Golang

namespace Host

/-! ## The comma/range notation of `hostmetadata/host` -/

/-- The decimal digit character of a digit below ten. -/
def digitChar (d : Nat) : Char := Char.ofNat (48 + d)

/-- The decimal digits of `n`, least significant first; `fuel` bounds their number. -/
def digitsLE : Nat → Nat → List Nat
  | 0, _ => []
  | fuel + 1, n => if n < 10 then [n] else n % 10 :: digitsLE fuel (n / 10)

/-- Modelled from the spec: the decimal text of an id (Go `strconv.Itoa` on a
non-negative `int`), used by the absent `onlineCPUsFor`. -/
def itoa (n : Nat) : List Char := ((digitsLE (n + 1) n).reverse).map digitChar

/-- Reading decimal digits onto an accumulator; any other character fails. -/
def atoiAux : Nat → List Char → Option Nat
  | acc, [] => some acc
  | acc, c :: cs => if c.isDigit then atoiAux (10 * acc + (c.toNat - 48)) cs else none

/-- Modelled from the spec: reading the decimal text of an id, used by the absent
`readCPURange`; the empty text is not a number. -/
def atoi (cs : List Char) : Option Nat :=
  match cs with
  | [] => none
  | c :: rest => atoiAux 0 (c :: rest)

/-- The maximal runs of consecutive ids of a list, each as (first, last). -/
def runs : List Nat → List (Nat × Nat)
  | [] => []
  | a :: rest =>
    match runs rest with
    | [] => [(a, a)]
    | (lo, hi) :: rs => if a + 1 = lo then (a, hi) :: rs else (a, a) :: (lo, hi) :: rs

/-- The text of one run: `a` for a run of one id, `a-b` for a longer one. -/
def renderRun (r : Nat × Nat) : List Char :=
  if r.1 = r.2 then itoa r.1 else itoa r.1 ++ '-' :: itoa r.2

/-- The ids of one run. -/
def expandRun (r : Nat × Nat) : List Nat := List.range' r.1 (r.2 + 1 - r.1)

/-- The ids of a list of runs, in order. -/
def expandRuns : List (Nat × Nat) → List Nat
  | [] => []
  | r :: rs => expandRun r ++ expandRuns rs

/-- Modelled from the spec: `onlineCPUsFor` is called by `TestOnlineCPUsFor` and is
absent from the sources; the spec describes it as encoding a set of integer ids into
comma/range notation, and the test fixes the text (`0-2,5-7` for 0,1,2,5,6,7).  The ids
are non-negative; neither the spec nor the test gives the `siblings` text a role. -/
def onlineCPUsFor (_siblings : String) (coreIDs : List Nat) : String :=
  String.mk (List.intercalate [','] ((runs coreIDs).map renderRun))

/-- Decoding one item of the notation: `a` or `a-b`. -/
def readRangeItem (item : List Char) : Option (List Nat) :=
  match item.splitOn '-' with
  | [a] => (atoi a).map fun n => [n]
  | [a, b] =>
    match atoi a, atoi b with
    | some first, some last => some (expandRun (first, last))
    | _, _ => none
  | _ => none

/-- Decoding the items in turn, appending the ids of each. -/
def readItems : List (List Char) → Option (List Nat)
  | [] => some []
  | item :: rest =>
    match readRangeItem item with
    | none => none
    | some ids =>
      match readItems rest with
      | none => none
      | some more => some (ids ++ more)

/-- Modelled from the spec: `readCPURange` is called by `TestReadCPUInfo` and is
absent from the sources; the spec describes it as decoding the comma/range notation
back into the ids.  `none` is the error result. -/
def readCPURange (cpuRangeStr : String) : Option (List Nat) :=
  readItems (cpuRangeStr.data.splitOn ',')

end Host

namespace Golang

/-! ## `errors.Is` -/

/-- What `errors.Is` decides against `NoGoVersion`: the value of the variable and what
wraps it match, through `Unwrap() error`, `Unwrap() []error` and an `Is` method; a `nil`
error, a fresh error with the same text and the value of another variable do not. -/
theorem errorsIs_cases :
    errorsIs (some (GoError.sentinel sampleNoGoVersion)) sampleNoGoVersion = true ∧
    errorsIs (some (GoError.wrapError "reading buildinfo"
      (GoError.sentinel sampleNoGoVersion))) sampleNoGoVersion = true ∧
    errorsIs (some (GoError.wrapErrors "joined"
      [GoError.errorString "short read", GoError.sentinel sampleNoGoVersion]))
      sampleNoGoVersion = true ∧
    errorsIs (some (GoError.custom "not go" (fun v => decide (v = sampleNoGoVersion)) []))
      sampleNoGoVersion = true ∧
    errorsIs none sampleNoGoVersion = false ∧
    errorsIs (some (GoError.errorString "NoGoVersion")) sampleNoGoVersion = false ∧
    errorsIs (some (GoError.sentinel ⟨"io.EOF"⟩)) sampleNoGoVersion = false := by
  decide

/-! ## `Loader` -/

/-- C1: when the ELF opens and version detection succeeds with a version `V` that is a
key of `allOffsets`, `Loader` returns no error and a data value whose `goVersion` is `V`
and whose offsets are the registry's entry for `V`. -/
theorem Loader_supported_version {F : Type}
    (ReadGoVersion : Option F → String × Option GoError) (NoGoVersion : ErrorVar)
    (allOffsets : String → Option GoCustomLabelsOffsets) (info : LoaderInfo F)
    (file : Option F) (V : String) (table : GoCustomLabelsOffsets)
    (hElf : info.GetELF = (file, none)) (hVer : ReadGoVersion file = (V, none))
    (hKey : allOffsets V = some table) :
    (Loader ReadGoVersion NoGoVersion allOffsets info).err = none ∧
    (Loader ReadGoVersion NoGoVersion allOffsets info).data = some ⟨V, table⟩ ∧
    ((Loader ReadGoVersion NoGoVersion allOffsets info).data.map fun d => d.goVersion)
      = some V ∧
    ((Loader ReadGoVersion NoGoVersion allOffsets info).data.map fun d => d.offsets)
      = allOffsets V := by
  simp [Loader, hElf, hVer, hKey, errorsIs]

/-- C2: when version detection succeeds with a version `V` that is not a key of
`allOffsets`, `Loader` returns no data and the error `No offsets found for go version V`,
whose text names the runtime (go) and ends with `V`; the result is never the silent
none-matched one. -/
theorem Loader_unsupported_version {F : Type}
    (ReadGoVersion : Option F → String × Option GoError) (NoGoVersion : ErrorVar)
    (allOffsets : String → Option GoCustomLabelsOffsets) (info : LoaderInfo F)
    (file : Option F) (V : String)
    (hElf : info.GetELF = (file, none)) (hVer : ReadGoVersion file = (V, none))
    (hKey : allOffsets V = none) :
    (Loader ReadGoVersion NoGoVersion allOffsets info).data = none ∧
    (Loader ReadGoVersion NoGoVersion allOffsets info).err
      = some (GoError.errorString ("No offsets found for go version " ++ V)) ∧
    (Loader ReadGoVersion NoGoVersion allOffsets info).err ≠ none ∧
    ¬ ((Loader ReadGoVersion NoGoVersion allOffsets info).data = none ∧
       (Loader ReadGoVersion NoGoVersion allOffsets info).err = none) := by
  simp [Loader, hElf, hVer, hKey, errorsIs]

/-- C3: `Loader` returns the none-matched result (no data, no error) exactly when the
ELF opens and version detection reports `NoGoVersion` (its error is, or wraps, the value
of that variable, as `errors.Is` decides); an error from opening the ELF, or from version
detection other than `NoGoVersion`, is returned unchanged with no data. -/
theorem Loader_none_matched_iff {F : Type}
    (ReadGoVersion : Option F → String × Option GoError) (NoGoVersion : ErrorVar)
    (allOffsets : String → Option GoCustomLabelsOffsets) (info : LoaderInfo F) :
    (((Loader ReadGoVersion NoGoVersion allOffsets info).data = none ∧
      (Loader ReadGoVersion NoGoVersion allOffsets info).err = none) ↔
      (info.GetELF.2 = none ∧
        errorsIs (ReadGoVersion info.GetELF.1).2 NoGoVersion = true)) ∧
    (∀ e, info.GetELF.2 = some e →
      (Loader ReadGoVersion NoGoVersion allOffsets info).data = none ∧
      (Loader ReadGoVersion NoGoVersion allOffsets info).err = some e) ∧
    (∀ e, info.GetELF.2 = none → (ReadGoVersion info.GetELF.1).2 = some e →
      errorsIs (some e) NoGoVersion = false →
      (Loader ReadGoVersion NoGoVersion allOffsets info).data = none ∧
      (Loader ReadGoVersion NoGoVersion allOffsets info).err = some e) := by
  rcases hE : info.GetELF with ⟨file, _ | e0⟩
  · rcases hV : ReadGoVersion file with ⟨v, _ | e1⟩
    · cases hK : allOffsets v <;> simp [Loader, hE, hV, hK, errorsIs]
    · by_cases hIs : errorsIs (some e1) NoGoVersion = true
      · simp [Loader, hE, hV, hIs]
      · simp [Loader, hE, hV, hIs]
  · simp [Loader, hE]

/-! ## `Attach` and `Detach` -/

/-- C4: `Attach` makes exactly one sampler call, `UpdateProcData` with kind Go, the
process id and the offset table of `d`, and when that call succeeds it returns no error
and an instance with the `goVersion` and offsets of `d`. -/
theorem Attach_registers_once {σ : Type} (h : EbpfHandler σ) (st : σ)
    (log : List EbpfCall) (d : data) (pid : PID) (bias : Address) (rm : RemoteMemory) :
    (d.Attach h.recording (st, log) pid bias rm).1.2
      = log ++ [EbpfCall.UpdateProcData InterpreterType.Go pid d.offsets] ∧
    (d.Attach h.recording (st, log) pid bias rm).1.1
      = (h.UpdateProcData st InterpreterType.Go pid d.offsets).1 ∧
    ((h.UpdateProcData st InterpreterType.Go pid d.offsets).2 = none →
      (d.Attach h.recording (st, log) pid bias rm).2 = (some d, none) ∧
      (d.Attach h st pid bias rm).2 = (some ⟨d.goVersion, d.offsets⟩, none)) := by
  rcases hU : h.UpdateProcData st InterpreterType.Go pid d.offsets with ⟨st1, _ | e⟩ <;>
    simp [data.Attach, EbpfHandler.recording, hU]

/-- C5: when the sampler's `UpdateProcData` fails with `e` and leaves the registrations
as they were, `Attach` returns `e` with no instance, has made that one call and no other,
and the registrations after it are those before it. -/
theorem Attach_failure_leaves_nothing {σ : Type} (h : EbpfHandler σ) (st : σ)
    (log : List EbpfCall) (d : data) (pid : PID) (bias : Address) (rm : RemoteMemory)
    (e : GoError)
    (hFail : h.UpdateProcData st InterpreterType.Go pid d.offsets = (st, some e)) :
    d.Attach h.recording (st, log) pid bias rm
      = ((st, log ++ [EbpfCall.UpdateProcData InterpreterType.Go pid d.offsets]),
          none, some e) ∧
    d.Attach h st pid bias rm = (st, none, some e) := by
  simp [data.Attach, EbpfHandler.recording, hFail]

/-- C6: on the map sampler, from registrations with no entry for (Go, pid), `Attach`
succeeds and `Detach` on the returned instance then succeeds, issues exactly one
`DeleteProcData` for (Go, pid), and leaves the registrations as they were at the start. -/
theorem Attach_then_Detach_restores (st : Registrations) (d : data) (pid : PID)
    (bias : Address) (rm : RemoteMemory) (hAbsent : st (InterpreterType.Go, pid) = none) :
    (d.Attach mapSampler.recording (st, []) pid bias rm).2 = (some d, none) ∧
    (d.Attach mapSampler.recording (st, []) pid bias rm).1.1 (InterpreterType.Go, pid)
      = some d.offsets ∧
    (d.Detach mapSampler.recording
      (d.Attach mapSampler.recording (st, []) pid bias rm).1 pid).2 = none ∧
    (d.Detach mapSampler.recording
      (d.Attach mapSampler.recording (st, []) pid bias rm).1 pid).1.1 = st ∧
    (d.Detach mapSampler.recording
      (d.Attach mapSampler.recording (st, []) pid bias rm).1 pid).1.2
      = [EbpfCall.UpdateProcData InterpreterType.Go pid d.offsets,
         EbpfCall.DeleteProcData InterpreterType.Go pid] ∧
    countUnregister InterpreterType.Go pid (d.Detach mapSampler.recording
      (d.Attach mapSampler.recording (st, []) pid bias rm).1 pid).1.2 = 1 := by
  have hback : Function.update
      (Function.update st (InterpreterType.Go, pid) (some d.offsets))
      (InterpreterType.Go, pid) none = st := by
    rw [Function.update_idem, ← hAbsent, Function.update_eq_self]
  simp [data.Attach, data.Detach, EbpfHandler.recording, mapSampler, hback,
    countUnregister]

/-- C7, as the code has it: `Detach` keeps no record of the instance's state and returns
what the sampler's `DeleteProcData` returns, so with a sampler that tolerates an absent
entry both of two consecutive `Detach` calls return no error, each after one
`DeleteProcData` for (Go, pid). -/
theorem Detach_twice_follows_sampler {σ : Type} (h : EbpfHandler σ)
    (hTol : TolerantUnregister h) (st : σ) (log : List EbpfCall) (d : data) (pid : PID) :
    (d.Detach h.recording (st, log) pid).2 = none ∧
    (d.Detach h.recording (d.Detach h.recording (st, log) pid).1 pid).2 = none ∧
    (d.Detach h.recording (d.Detach h.recording (st, log) pid).1 pid).1.2
      = log ++ [EbpfCall.DeleteProcData InterpreterType.Go pid,
                EbpfCall.DeleteProcData InterpreterType.Go pid] := by
  simp [data.Detach, EbpfHandler.recording, hTol _ _ _]

/-- C8, as the code has it: `Detach` hands the error of the sampler's `DeleteProcData`
to its caller unchanged, so an error reporting an absent entry is returned, and `Detach`
returns no error exactly when `DeleteProcData` returns none. -/
theorem Detach_returns_sampler_error {σ : Type} (h : EbpfHandler σ) (st : σ) (d : data)
    (pid : PID) (e : GoError)
    (hAbsent : (h.DeleteProcData st InterpreterType.Go pid).2 = some e) :
    (d.Detach h st pid).2 = some e ∧
    (d.Detach h st pid).1 = (h.DeleteProcData st InterpreterType.Go pid).1 ∧
    (d.Detach h.recording (st, []) pid).1.2
      = [EbpfCall.DeleteProcData InterpreterType.Go pid] := by
  simp [data.Detach, EbpfHandler.recording, hAbsent]

/-- C10: `Attach` does not use the load bias and the remote-memory reader: for any two
pairs of them the sampler call (kind Go, the process id, the offsets of `d` as they are),
the new sampler state and the result are the same, and the instance returned, if any, is
`d` itself. -/
theorem Attach_ignores_bias_and_memory {σ : Type} (h : EbpfHandler σ) (st : σ)
    (log : List EbpfCall) (d : data) (pid : PID) (bias1 bias2 : Address)
    (rm1 rm2 : RemoteMemory) :
    d.Attach h.recording (st, log) pid bias1 rm1
      = d.Attach h.recording (st, log) pid bias2 rm2 ∧
    (d.Attach h.recording (st, log) pid bias1 rm1).1.2
      = log ++ [EbpfCall.UpdateProcData InterpreterType.Go pid d.offsets] ∧
    (d.Attach h.recording (st, log) pid bias2 rm2).1.2
      = log ++ [EbpfCall.UpdateProcData InterpreterType.Go pid d.offsets] ∧
    (∀ inst, (d.Attach h.recording (st, log) pid bias1 rm1).2.1 = some inst →
      inst = d ∧ inst.offsets.fields = d.offsets.fields) := by
  rcases hU : h.UpdateProcData st InterpreterType.Go pid d.offsets with ⟨st1, _ | e⟩ <;>
    simp [data.Attach, EbpfHandler.recording, hU]

end Golang

namespace Host

/-! ## Decimal text -/

theorem digitChar_isDigit (d : Nat) (h : d < 10) : (digitChar d).isDigit = true := by
  interval_cases d <;> decide

theorem digitChar_value (d : Nat) (h : d < 10) : (digitChar d).toNat - 48 = d := by
  interval_cases d <;> decide

theorem digitChar_ne_comma (d : Nat) (h : d < 10) : digitChar d ≠ ',' := by
  interval_cases d <;> decide

theorem digitChar_ne_dash (d : Nat) (h : d < 10) : digitChar d ≠ '-' := by
  interval_cases d <;> decide

theorem digitsLE_lt_ten (fuel : Nat) : ∀ n, ∀ x ∈ digitsLE fuel n, x < 10 := by
  induction fuel with
  | zero => intro n x hx; simp [digitsLE] at hx
  | succ f ih =>
    intro n x hx
    unfold digitsLE at hx
    split at hx
    · simp at hx; omega
    · rcases List.mem_cons.mp hx with h | h
      · omega
      · exact ih _ x h

theorem digitsLE_value (fuel : Nat) : ∀ n, n < fuel → Nat.ofDigits 10 (digitsLE fuel n) = n := by
  induction fuel with
  | zero => intro n h; omega
  | succ f ih =>
    intro n h
    unfold digitsLE
    split
    · simp [Nat.ofDigits]
    · rw [Nat.ofDigits_cons, ih (n / 10) (by omega)]
      omega

theorem digitsLE_ne_nil (fuel n : Nat) : digitsLE (fuel + 1) n ≠ [] := by
  unfold digitsLE
  split <;> simp

theorem atoiAux_append (xs ys : List Char) : ∀ acc,
    atoiAux acc (xs ++ ys) = (atoiAux acc xs).bind fun a => atoiAux a ys := by
  induction xs with
  | nil => intro acc; simp [atoiAux]
  | cons c cs ih =>
    intro acc
    simp only [List.cons_append, atoiAux]
    split
    · exact ih _
    · rfl

theorem atoiAux_digits (L : List Nat) (hL : ∀ x ∈ L, x < 10) : ∀ acc,
    atoiAux acc (L.reverse.map digitChar) = some (acc * 10 ^ L.length + Nat.ofDigits 10 L) := by
  induction L with
  | nil => intro acc; simp [atoiAux]
  | cons d ds ih =>
    intro acc
    have hd : d < 10 := hL d (List.mem_cons_self _ _)
    have hds : ∀ x ∈ ds, x < 10 := fun x hx => hL x (List.mem_cons_of_mem _ hx)
    rw [List.reverse_cons, List.map_append, atoiAux_append, ih hds acc]
    simp only [List.map_cons, List.map_nil, Option.some_bind, atoiAux,
      digitChar_isDigit d hd, digitChar_value d hd, if_true, Nat.ofDigits_cons,
      List.length_cons]
    congr 1
    ring

theorem itoa_ne_nil (n : Nat) : itoa n ≠ [] := by
  simp [itoa, digitsLE_ne_nil]

theorem atoi_itoa (n : Nat) : atoi (itoa n) = some n := by
  have h := atoiAux_digits (digitsLE (n + 1) n) (digitsLE_lt_ten _ _) 0
  rw [digitsLE_value (n + 1) n (by omega)] at h
  have hne := itoa_ne_nil n
  unfold atoi
  split
  · contradiction
  · rename_i c rest heq
    rw [← heq]
    simpa [itoa] using h

theorem comma_not_mem_itoa (n : Nat) : ',' ∉ itoa n := by
  intro hmem
  simp only [itoa, List.mem_map, List.mem_reverse] at hmem
  obtain ⟨d, hd, heq⟩ := hmem
  exact digitChar_ne_comma d (digitsLE_lt_ten _ _ d hd) heq

theorem dash_not_mem_itoa (n : Nat) : '-' ∉ itoa n := by
  intro hmem
  simp only [itoa, List.mem_map, List.mem_reverse] at hmem
  obtain ⟨d, hd, heq⟩ := hmem
  exact digitChar_ne_dash d (digitsLE_lt_ten _ _ d hd) heq

end Host

namespace Host

/-! ## Runs and items -/

theorem comma_not_mem_renderRun (r : Nat × Nat) : ',' ∉ renderRun r := by
  unfold renderRun
  split
  · exact comma_not_mem_itoa _
  · intro hmem
    rcases List.mem_append.mp hmem with h | h
    · exact comma_not_mem_itoa _ h
    · rcases List.mem_cons.mp h with h | h
      · exact absurd h (by decide)
      · exact comma_not_mem_itoa _ h

theorem readRangeItem_renderRun (r : Nat × Nat) (h : r.1 ≤ r.2) :
    readRangeItem (renderRun r) = some (expandRun r) := by
  obtain ⟨lo, hi⟩ := r
  simp only at h
  unfold renderRun
  split
  · rename_i heq
    simp only at heq
    subst heq
    have hs : (itoa lo).splitOn '-' = [itoa lo] := by
      have := @List.splitOn_intercalate Char [itoa lo] _ '-'
        (by intro l hl; simp at hl; subst hl; exact dash_not_mem_itoa lo) (by simp)
      simpa [List.intercalate] using this
    simp [readRangeItem, hs, atoi_itoa, expandRun]
  · have hs : (itoa lo ++ '-' :: itoa hi).splitOn '-' = [itoa lo, itoa hi] := by
      have := @List.splitOn_intercalate Char [itoa lo, itoa hi] _ '-'
        (by
          intro l hl
          simp at hl
          rcases hl with hl | hl
          · subst hl; exact dash_not_mem_itoa lo
          · subst hl; exact dash_not_mem_itoa hi) (by simp)
      simpa [List.intercalate, List.intersperse] using this
    simp [readRangeItem, hs, atoi_itoa]

theorem runs_ne_nil (a : Nat) (rest : List Nat) : runs (a :: rest) ≠ [] := by
  unfold runs
  split
  · simp
  · split <;> simp

theorem runs_head (a : Nat) (rest : List Nat) :
    ∃ hi rs, runs (a :: rest) = (a, hi) :: rs := by
  unfold runs
  split
  · exact ⟨a, [], rfl⟩
  · rename_i lo hi rs _
    split
    · exact ⟨hi, rs, rfl⟩
    · exact ⟨a, (lo, hi) :: rs, rfl⟩

theorem runs_ordered (l : List Nat) : ∀ r ∈ runs l, r.1 ≤ r.2 := by
  induction l with
  | nil => intro r hr; simp [runs] at hr
  | cons a rest ih =>
    intro r hr
    unfold runs at hr
    split at hr
    · simp at hr; subst hr; simp
    · rename_i lo hi rs heq
      have hlo : lo ≤ hi := ih (lo, hi) (by rw [heq]; simp)
      have hrs : ∀ q ∈ rs, q.1 ≤ q.2 := fun q hq => ih q (by rw [heq]; simp [hq])
      split at hr
      · rcases List.mem_cons.mp hr with h | h
        · subst h; simp only; omega
        · exact hrs r h
      · rcases List.mem_cons.mp hr with h | h
        · subst h; simp
        · rcases List.mem_cons.mp h with h | h
          · subst h; exact hlo
          · exact hrs r h

theorem expandRun_cons (a hi : Nat) (h : a + 1 ≤ hi) :
    expandRun (a, hi) = a :: expandRun (a + 1, hi) := by
  simp only [expandRun]
  have : hi + 1 - a = (hi + 1 - (a + 1)) + 1 := by omega
  rw [this, List.range'_succ]

end Host

namespace Host

theorem expandRuns_runs (l : List Nat) : expandRuns (runs l) = l := by
  induction l with
  | nil => simp [runs, expandRuns]
  | cons a rest ih =>
    unfold runs
    split
    · rename_i heq
      cases rest with
      | nil => simp [expandRuns, expandRun]
      | cons b more => exact absurd heq (runs_ne_nil b more)
    · rename_i lo hi rs heq
      have hlo : lo ≤ hi := runs_ordered rest (lo, hi) (by rw [heq]; simp)
      rw [heq] at ih
      simp only [expandRuns] at ih
      split
      · rename_i hadj
        subst hadj
        simp only [expandRuns]
        rw [expandRun_cons a hi hlo, List.cons_append, ih]
      · simp only [expandRuns]
        rw [ih]
        simp [expandRun]

theorem readItems_renderRun (rs : List (Nat × Nat)) (h : ∀ r ∈ rs, r.1 ≤ r.2) :
    readItems (rs.map renderRun) = some (expandRuns rs) := by
  induction rs with
  | nil => simp [readItems, expandRuns]
  | cons r rest ih =>
    have hr : r.1 ≤ r.2 := h r (List.mem_cons_self _ _)
    have hrest : ∀ q ∈ rest, q.1 ≤ q.2 := fun q hq => h q (List.mem_cons_of_mem _ hq)
    simp [readItems, readRangeItem_renderRun r hr, ih hrest, expandRuns]

theorem runs_gaps (l : List Nat) (hs : l.Sorted (· < ·)) :
    List.Chain' (fun r q : Nat × Nat => r.2 + 1 < q.1) (runs l) := by
  induction l with
  | nil => simp [runs]
  | cons a rest ih =>
    have hrest : rest.Sorted (· < ·) := hs.of_cons
    have hlt : ∀ b ∈ rest, a < b := List.rel_of_sorted_cons hs
    have ih' := ih hrest
    unfold runs
    split
    · simp
    · rename_i lo hi rs heq
      rw [heq] at ih'
      have hlo : a < lo := by
        cases rest with
        | nil => simp [runs] at heq
        | cons b more =>
          obtain ⟨hi', rs', hb⟩ := runs_head b more
          rw [hb] at heq
          have : b = lo := by
            have := congrArg (fun x => (x.head?.map Prod.fst)) heq
            simpa using this
          subst this
          exact hlt b (List.mem_cons_self _ _)
      split
      · cases rs with
        | nil => simp
        | cons q qs =>
          rw [List.chain'_cons] at ih' ⊢
          exact ih'
      · rename_i hne
        rw [List.chain'_cons]
        refine ⟨?_, ih'⟩
        simp only
        omega

end Host

namespace Host

/-! ## The round trip -/

/-- C9: for a non-empty strictly increasing list of ids, `readCPURange` decodes the text
of `onlineCPUsFor` back to the same list; the text joins with commas the runs of the
list, each written `a` or `a-b`, the runs are ranges of consecutive ids that cover the
list and are maximal (a gap separates each from the next), and the two sample lists
encode to `0-2,5-7` and `1-2,4,6-7`. -/
theorem readCPURange_onlineCPUsFor (siblings : String) (ids : List Nat)
    (hne : ids ≠ []) (hs : ids.Sorted (· < ·)) :
    readCPURange (onlineCPUsFor siblings ids) = some ids ∧
    onlineCPUsFor siblings ids
      = String.mk (List.intercalate [','] ((runs ids).map renderRun)) ∧
    (∀ r, renderRun r = if r.1 = r.2 then itoa r.1 else itoa r.1 ++ '-' :: itoa r.2) ∧
    expandRuns (runs ids) = ids ∧
    (∀ r ∈ runs ids, r.1 ≤ r.2 ∧ expandRun r = List.range' r.1 (r.2 - r.1 + 1)) ∧
    List.Chain' (fun r q : Nat × Nat => r.2 + 1 < q.1) (runs ids) ∧
    onlineCPUsFor siblings [0, 1, 2, 5, 6, 7] = "0-2,5-7" ∧
    onlineCPUsFor siblings [1, 2, 4, 6, 7] = "1-2,4,6-7" := by
  refine ⟨?_, rfl, fun r => rfl, expandRuns_runs ids, ?_, runs_gaps ids hs, ?_, ?_⟩
  · have hruns : (runs ids).map renderRun ≠ [] := by
      cases ids with
      | nil => exact absurd rfl hne
      | cons a rest => simpa using runs_ne_nil a rest
    have hsplit : (List.intercalate [','] ((runs ids).map renderRun)).splitOn ','
        = (runs ids).map renderRun := by
      apply List.splitOn_intercalate
      · intro l hl
        obtain ⟨r, _, hr⟩ := List.mem_map.mp hl
        rw [← hr]
        exact comma_not_mem_renderRun r
      · exact hruns
    simp only [readCPURange, onlineCPUsFor, hsplit]
    rw [readItems_renderRun _ (runs_ordered ids), expandRuns_runs]
  · intro r hr
    have hle := runs_ordered ids r hr
    refine ⟨hle, ?_⟩
    simp only [expandRun]
    congr 1
    omega
  · simp only [onlineCPUsFor]
    decide
  · simp only [onlineCPUsFor]
    decide

/-- The table of `TestOnlineCPUsFor`: every expected text is the one produced. -/
theorem TestOnlineCPUsFor_table :
    onlineCPUsFor "0-7" [3] = "3" ∧
    onlineCPUsFor "0-7" [3, 5] = "3,5" ∧
    onlineCPUsFor "0-7" [0, 1, 2, 3] = "0-3" ∧
    onlineCPUsFor "0-7" [0, 1, 2, 5] = "0-2,5" ∧
    onlineCPUsFor "0-7" [0, 1, 2, 5, 6, 7] = "0-2,5-7" ∧
    onlineCPUsFor "0-7" [1, 2, 4, 6, 7] = "1-2,4,6-7" ∧
    onlineCPUsFor "0-7" [1, 2, 4, 7] = "1-2,4,7" ∧
    onlineCPUsFor "0-7" [0, 1, 3, 4, 6, 7] = "0-1,3-4,6-7" := by
  decide

/-- The round trip of C9 on the ids 0, 1, 2, 5, 6, 7. -/
theorem readCPURange_onlineCPUsFor_witness :
    [0, 1, 2, 5, 6, 7] ≠ [] ∧ List.Sorted (· < ·) [0, 1, 2, 5, 6, 7] ∧
    readCPURange (onlineCPUsFor "0-7" [0, 1, 2, 5, 6, 7]) = some [0, 1, 2, 5, 6, 7] :=
  ⟨by decide, by decide,
    (readCPURange_onlineCPUsFor "0-7" [0, 1, 2, 5, 6, 7] (by decide) (by decide)).1⟩

end Host

namespace Golang

/-! ## The theorems at concrete inputs -/

/-- C1 at version `1.21.3`, present in the registry. -/
theorem Loader_supported_version_witness :
    (Loader (detects "1.21.3") sampleNoGoVersion sampleOffsets sampleInfo).err = none ∧
    (Loader (detects "1.21.3") sampleNoGoVersion sampleOffsets sampleInfo).data
      = some ⟨"1.21.3", ⟨[8, 16, 24]⟩⟩ :=
  have h := Loader_supported_version (detects "1.21.3") sampleNoGoVersion sampleOffsets
    sampleInfo (some ()) "1.21.3" ⟨[8, 16, 24]⟩ rfl rfl (by decide)
  ⟨h.1, h.2.1⟩

/-- C2 at version `9.9.9`, absent from the registry. -/
theorem Loader_unsupported_version_witness :
    (Loader (detects "9.9.9") sampleNoGoVersion sampleOffsets sampleInfo).data = none ∧
    (Loader (detects "9.9.9") sampleNoGoVersion sampleOffsets sampleInfo).err
      = some (GoError.errorString "No offsets found for go version 9.9.9") :=
  have h := Loader_unsupported_version (detects "9.9.9") sampleNoGoVersion sampleOffsets
    sampleInfo (some ()) "9.9.9" rfl rfl (by decide)
  ⟨h.1, h.2.1.trans (congrArg (fun m => some (GoError.errorString m)) (by decide))⟩

/-- C3 at a binary whose detection error wraps `NoGoVersion`, at an ELF that does not
open, and at a detection error that only carries the text `NoGoVersion`. -/
theorem Loader_none_matched_iff_witness :
    ((Loader (detectFails (GoError.wrapError "reading buildinfo"
          (GoError.sentinel sampleNoGoVersion))) sampleNoGoVersion sampleOffsets
          sampleInfo).data = none ∧
      (Loader (detectFails (GoError.wrapError "reading buildinfo"
          (GoError.sentinel sampleNoGoVersion))) sampleNoGoVersion sampleOffsets
          sampleInfo).err = none) ∧
    (Loader (detects "1.21.3") sampleNoGoVersion sampleOffsets brokenInfo).err
      = some (GoError.errorString "bad ELF magic") ∧
    (Loader (detectFails (GoError.errorString "NoGoVersion")) sampleNoGoVersion
        sampleOffsets sampleInfo).err = some (GoError.errorString "NoGoVersion") :=
  ⟨(Loader_none_matched_iff (detectFails (GoError.wrapError "reading buildinfo"
      (GoError.sentinel sampleNoGoVersion))) sampleNoGoVersion sampleOffsets
      sampleInfo).1.2 ⟨rfl, by decide⟩,
   ((Loader_none_matched_iff (detects "1.21.3") sampleNoGoVersion sampleOffsets
      brokenInfo).2.1 _ rfl).2,
   ((Loader_none_matched_iff (detectFails (GoError.errorString "NoGoVersion"))
      sampleNoGoVersion sampleOffsets sampleInfo).2.2 _ rfl rfl (by decide)).2⟩

/-- C4 at pid 4242 and bias 0x1000 on the map sampler. -/
theorem Attach_registers_once_witness :
    (sampleData.Attach mapSampler.recording (emptyRegistrations, []) 4242 0x1000
        sampleMemory).1.2
      = [EbpfCall.UpdateProcData InterpreterType.Go 4242 ⟨[8, 16, 24]⟩] ∧
    (sampleData.Attach mapSampler.recording (emptyRegistrations, []) 4242 0x1000
        sampleMemory).2 = (some sampleData, none) :=
  have h := Attach_registers_once mapSampler emptyRegistrations [] sampleData 4242 0x1000
    sampleMemory
  ⟨h.1, (h.2.2 rfl).1⟩

/-- C5 at pid 4242 on a sampler whose registration fails. -/
theorem Attach_failure_leaves_nothing_witness :
    sampleData.Attach fullSampler emptyRegistrations 4242 0x1000 sampleMemory
      = (emptyRegistrations, none, some (GoError.errorString "map is full")) :=
  (Attach_failure_leaves_nothing fullSampler emptyRegistrations [] sampleData 4242 0x1000
    sampleMemory (GoError.errorString "map is full") rfl).2

/-- C6 at pid 4242 from the empty registrations. -/
theorem Attach_then_Detach_restores_witness :
    emptyRegistrations (InterpreterType.Go, 4242) = none ∧
    (sampleData.Detach mapSampler.recording
      (sampleData.Attach mapSampler.recording (emptyRegistrations, []) 4242 0x1000
        sampleMemory).1 4242).1.1 = emptyRegistrations :=
  ⟨rfl, (Attach_then_Detach_restores emptyRegistrations sampleData 4242 0x1000 sampleMemory
    rfl).2.2.2.1⟩

/-- C7 fails on the code: on the map sampler, whose `DeleteProcData` tolerates an absent
entry, after `Attach` and a first `Detach` for pid 4242 the second `Detach` returns no
error, and so does a `Detach` on an instance that was never attached. -/
theorem Detach_second_call_silent :
    TolerantUnregister mapSampler ∧
    (sampleData.Detach mapSampler
      (sampleData.Detach mapSampler
        (sampleData.Attach mapSampler emptyRegistrations 4242 0x1000 sampleMemory).1
        4242).1 4242).2 = none ∧
    (sampleData.Detach mapSampler emptyRegistrations 4242).2 = none :=
  ⟨fun _ _ _ => rfl, rfl, rfl⟩

/-- C7 as amended, on the map sampler at pid 4242. -/
theorem Detach_twice_follows_sampler_witness :
    TolerantUnregister mapSampler ∧
    (sampleData.Detach mapSampler.recording
      (sampleData.Detach mapSampler.recording (emptyRegistrations, []) 4242).1 4242).2
      = none :=
  ⟨fun _ _ _ => rfl,
   (Detach_twice_follows_sampler mapSampler (fun _ _ _ => rfl) emptyRegistrations []
      sampleData 4242).2.1⟩

/-- C8 fails on the code: on the kernel-map sampler with no entry for (Go, 4242),
`DeleteProcData` reports the absence and `Detach` returns that error to its caller. -/
theorem Detach_escalates_absence :
    (strictSampler.DeleteProcData emptyRegistrations InterpreterType.Go 4242).2
      = some (GoError.errorString "key does not exist") ∧
    (sampleData.Detach strictSampler emptyRegistrations 4242).2
      = some (GoError.errorString "key does not exist") ∧
    (sampleData.Detach strictSampler emptyRegistrations 4242).2 ≠ none :=
  ⟨rfl, rfl, by simp [data.Detach, strictSampler, emptyRegistrations]⟩

/-- C8 as amended, on the kernel-map sampler at pid 4242. -/
theorem Detach_returns_sampler_error_witness :
    (strictSampler.DeleteProcData emptyRegistrations InterpreterType.Go 4242).2
      = some (GoError.errorString "key does not exist") ∧
    (sampleData.Detach strictSampler emptyRegistrations 4242).2
      = some (GoError.errorString "key does not exist") :=
  ⟨rfl, (Detach_returns_sampler_error strictSampler emptyRegistrations sampleData 4242
    (GoError.errorString "key does not exist") rfl).1⟩

/-- C10 at pid 4242 with the biases 0 and 0x1000. -/
theorem Attach_ignores_bias_and_memory_witness :
    sampleData.Attach mapSampler.recording (emptyRegistrations, []) 4242 0 sampleMemory
      = sampleData.Attach mapSampler.recording (emptyRegistrations, []) 4242 0x1000
          ⟨fun _ n => some (List.replicate n 0)⟩ :=
  (Attach_ignores_bias_and_memory mapSampler emptyRegistrations [] sampleData 4242 0 0x1000
    sampleMemory ⟨fun _ n => some (List.replicate n 0)⟩).1

end Golang
